import Mathlib

/-!
KNXnet/IP tunnelling frames (`knx/proto/tunnel.go`).

A shallow embedding of the two body codecs of `tunnel.go`:

* `TunnelReq` : a 4-byte header followed by a CEMI payload,
* `TunnelRes` : a fixed 4-byte acknowledgement carrying a status code.

Conventions of the embedding.

* A Go `uint8`/`byte` is a `Byte`, i.e. a natural number below 256.
* A Go `[]byte` is a `List Byte`.  A store `buffer[i] = v` that is out of range
  panics; a panicking `Pack` is `none`.
* A Go `uint` is a natural number below `2 ^ 64`; the two `uint` additions of the
  file (`4 + cemi.Size(..)` and `n += m`) are taken modulo `2 ^ 64`.
* A method with a pointer receiver that assigns to its fields returns the
  receiver's final value next to its Go results.
* A Go `error` result is an `Option Error`, `none` standing for `nil`.
* Package `cemi` is not part of the file; its three entry points are the
  fields of a `Cemi` value over which every definition is parametric.
-/

namespace Knx

/-- A Go `uint8`. -/
abbrev Byte := Fin 256

/-- Go's `uint` addition on a 64-bit platform. -/
def uintAdd (a b : Nat) : Nat := (a + b) % 2 ^ 64

/-- The error values the decoders can return. `shortInput` is the failure of
`util.UnpackSome` on exhausted input, `errorsNew msg` is `errors.New(msg)`. -/
inductive Error where
  | shortInput : Error
  | errorsNew (msg : String) : Error
  deriving DecidableEq, Repr

/-- The entry points of package `cemi` used by `tunnel.go`:
`cemi.Size(message)`, `cemi.Pack(buffer, message)` (which stores into the
slice it is handed, `none` when it panics) and `cemi.Unpack(data, &message)`
(which returns the count, the error and the final value of `*message`). -/
structure Cemi (Message : Type) where
  Size : Message → Nat
  Pack : List Byte → Message → Option (List Byte)
  Unpack : List Byte → Message → Nat × Option Error × Message

/-- Modelled from the spec: `util.UnpackSome`, whose source is not part of the
file, restricted to 8-bit destinations (the only ones `tunnel.go` passes).
`dests` holds the current values of the destinations, in order.  One byte is
read per destination; reading stops at the first destination for which no byte
is left, with the short-input failure.  The result is the final value of every
destination, the number of bytes consumed, and the error. -/
def UnpackSome : List Byte → List Byte → List Byte × Nat × Option Error
  | _, [] => ([], 0, none)
  | [], d :: ds => (d :: ds, 0, some Error.shortInput)
  | b :: data, _ :: ds =>
    let r := UnpackSome data ds
    (b :: r.1, uintAdd 1 r.2.1, r.2.2)

/-- The indexed store `buffer[i] = v`; `none` is the out-of-range panic. -/
def store (buffer : List Byte) (i : Nat) (v : Byte) : Option (List Byte) :=
  if i < buffer.length then some (buffer.set i v) else none

/-- `type TunnelReq struct`. -/
structure TunnelReq (Message : Type) where
  Channel : Byte
  SeqNumber : Byte
  Payload : Message

/-- `func (req *TunnelReq) Size() uint`. -/
def TunnelReq.Size {Message : Type} (cemi : Cemi Message) (req : TunnelReq Message) : Nat :=
  uintAdd 4 (cemi.Size req.Payload)

/-- `func (req *TunnelReq) Pack(buffer []byte)`: four stores, then `cemi.Pack`
on the slice `buffer[4:]`, which shares its storage with `buffer`. -/
def TunnelReq.Pack {Message : Type} (cemi : Cemi Message) (req : TunnelReq Message)
    (buffer : List Byte) : Option (List Byte) := do
  let b0 ← store buffer 0 4
  let b1 ← store b0 1 req.Channel
  let b2 ← store b1 2 req.SeqNumber
  let b3 ← store b2 3 0
  let tail ← cemi.Pack (b3.drop 4) req.Payload
  pure (b3.take 4 ++ tail)

/-- `func (req *TunnelReq) Unpack(data []byte) (n uint, err error)`.
The locals `length` and `reserved` start at zero. -/
def TunnelReq.Unpack {Message : Type} (cemi : Cemi Message) (req : TunnelReq Message)
    (data : List Byte) : TunnelReq Message × Nat × Option Error :=
  let r := UnpackSome data [0, req.Channel, req.SeqNumber, 0]
  let length : Byte := r.1.getD 0 0
  let req1 : TunnelReq Message :=
    { req with Channel := r.1.getD 1 req.Channel, SeqNumber := r.1.getD 2 req.SeqNumber }
  let n := r.2.1
  match r.2.2 with
  | some err => (req1, n, some err)
  | none =>
    if length ≠ 4 then
      (req1, n, some (Error.errorsNew "Length header is not 4"))
    else
      let c := cemi.Unpack (data.drop n) req1.Payload
      ({ req1 with Payload := c.2.2 }, uintAdd n c.1, c.2.1)

/-- `type TunnelResStatus uint8`. -/
abbrev TunnelResStatus := Byte

/-- `TunnelResOk TunnelResStatus = 0x00`. -/
def TunnelResOk : TunnelResStatus := 0x00

/-- `TunnelResUnsupported TunnelResStatus = 0x29`. -/
def TunnelResUnsupported : TunnelResStatus := 0x29

/-- The lower-case hexadecimal digit of a value below 16. -/
def hexDigit (d : Nat) : Char :=
  if d < 10 then Char.ofNat (48 + d) else Char.ofNat (87 + d)

/-- Go's `fmt.Sprintf("%#x", v)` for a `uint8`: `0x` followed by the lower-case
hexadecimal digits of `v`, with no width and so no padding. -/
def sprintfHashX (v : Byte) : String :=
  if v.val < 16 then String.mk ['0', 'x', hexDigit v.val]
  else String.mk ['0', 'x', hexDigit (v.val / 16), hexDigit (v.val % 16)]

/-- `func (status TunnelResStatus) String() string`. -/
def TunnelResStatus.String (status : TunnelResStatus) : String :=
  if status = TunnelResOk then "Ok"
  else if status = TunnelResUnsupported then "Unsupported"
  else sprintfHashX status

/-- `type TunnelRes struct`. -/
structure TunnelRes where
  Channel : Byte
  SeqNumber : Byte
  Status : TunnelResStatus
  deriving DecidableEq, Repr

/-- `func (TunnelRes) Size() uint`. -/
def TunnelRes.Size (_res : TunnelRes) : Nat := 4

/-- `func (res *TunnelRes) Pack(buffer []byte)`. -/
def TunnelRes.Pack (res : TunnelRes) (buffer : List Byte) : Option (List Byte) := do
  let b0 ← store buffer 0 4
  let b1 ← store b0 1 res.Channel
  let b2 ← store b1 2 res.SeqNumber
  store b2 3 res.Status

/-- `func (res *TunnelRes) Unpack(data []byte) (n uint, err error)`.
The local `length` starts at zero. -/
def TunnelRes.Unpack (res : TunnelRes) (data : List Byte) : TunnelRes × Nat × Option Error :=
  let r := UnpackSome data [0, res.Channel, res.SeqNumber, res.Status]
  let length : Byte := r.1.getD 0 0
  let res1 : TunnelRes :=
    { Channel := r.1.getD 1 res.Channel
      SeqNumber := r.1.getD 2 res.SeqNumber
      Status := r.1.getD 3 res.Status }
  let n := r.2.1
  match r.2.2 with
  | some err => (res1, n, some err)
  | none =>
    if length ≠ 4 then
      (res1, n, some (Error.errorsNew "Length header is not 4"))
    else
      (res1, n, none)

/-- The error both decoders build when the structure-length byte is not 4. -/
def lengthMismatch : Error := Error.errorsNew "Length header is not 4"

/-- A small stand-in for package `cemi`, used to instantiate the parametric
results: a message is its own packed form, `Pack` panics when the buffer is
too short, `Unpack` takes the whole input. -/
def rawCemi : Cemi (List Byte) where
  Size := fun m => m.length
  Pack := fun buffer m =>
    if m.length ≤ buffer.length then some (m ++ buffer.drop m.length) else none
  Unpack := fun data _ => (data.length, none, data)

/-- The `Error()` method of an error value: the text handed to `errors.New`.
The text of the short-input failure belongs to package `util` and is left
unspecified. -/
def Error.message : Error → Option String
  | Error.shortInput => none
  | Error.errorsNew msg => some msg

/-! ## Auxiliary lemmas -/

theorem UnpackSome_four (a b c d : Byte) (rest : List Byte) (w x y z : Byte) :
    UnpackSome (a :: b :: c :: d :: rest) [w, x, y, z] = ([a, b, c, d], 4, none) := by
  simp [UnpackSome, uintAdd]

theorem exists_cons4 (data : List Byte) (hlen : 4 ≤ data.length) :
    ∃ a b c d rest, data = a :: b :: c :: d :: rest := by
  match data, hlen with
  | a :: b :: c :: d :: rest, _ => exact ⟨a, b, c, d, rest, rfl⟩

theorem short_cases (data : List Byte) (hlen : data.length < 4) :
    data = [] ∨ (∃ a, data = [a]) ∨ (∃ a b, data = [a, b]) ∨ (∃ a b c, data = [a, b, c]) := by
  match data, hlen with
  | [], _ => simp
  | [a], _ => simp
  | [a, b], _ => simp
  | [a, b, c], _ => simp
  | _ :: _ :: _ :: _ :: _, h => simp at h; omega

theorem TunnelRes_Unpack_cons4 (r0 : TunnelRes) (a b c d : Byte) (rest : List Byte) :
    TunnelRes.Unpack r0 (a :: b :: c :: d :: rest) =
      (⟨b, c, d⟩, 4, if a = 4 then none else some lengthMismatch) := by
  simp only [TunnelRes.Unpack, UnpackSome_four, lengthMismatch]
  split <;> simp_all

theorem TunnelReq_Unpack_cons4 {Message : Type} (cemi : Cemi Message) (req : TunnelReq Message)
    (a b c d : Byte) (rest : List Byte) :
    TunnelReq.Unpack cemi req (a :: b :: c :: d :: rest) =
      if a = 4 then
        (⟨b, c, (cemi.Unpack rest req.Payload).2.2⟩,
          uintAdd 4 (cemi.Unpack rest req.Payload).1, (cemi.Unpack rest req.Payload).2.1)
      else (⟨b, c, req.Payload⟩, 4, some lengthMismatch) := by
  simp only [TunnelReq.Unpack, UnpackSome_four, lengthMismatch]
  split <;> simp_all

theorem TunnelRes_Pack_cons4 (res : TunnelRes) (a b c d : Byte) (rest : List Byte) :
    res.Pack (a :: b :: c :: d :: rest) =
      some (4 :: res.Channel :: res.SeqNumber :: res.Status :: rest) := by
  simp [TunnelRes.Pack, store]

theorem TunnelReq_Pack_cons4 {Message : Type} (cemi : Cemi Message) (req : TunnelReq Message)
    (a b c d : Byte) (rest : List Byte) :
    req.Pack cemi (a :: b :: c :: d :: rest) =
      (cemi.Pack rest req.Payload).map (fun t => 4 :: req.Channel :: req.SeqNumber :: 0 :: t) := by
  simp [TunnelReq.Pack, store]
  cases cemi.Pack rest req.Payload <;> simp

theorem uintAdd_of_fit (a b : Nat) (h : a + b < 2 ^ 64) : uintAdd a b = a + b := by
  unfold uintAdd
  exact Nat.mod_eq_of_lt h

/-! ## Round trips and wire layout -/

/-- C1. Round trip of `TunnelRes`: for every channel, sequence number and
status byte, `Pack` into a 4-byte buffer succeeds, and `Unpack` of the packed
buffer (on any receiver) returns no error, reports 4 bytes consumed and leaves
a `TunnelRes` equal to the original. -/
theorem TunnelRes_roundtrip (channel seq : Byte) (status : TunnelResStatus)
    (buffer : List Byte) (hlen : buffer.length = 4) (r0 : TunnelRes) :
    ∃ packed, (TunnelRes.mk channel seq status).Pack buffer = some packed ∧
      TunnelRes.Unpack r0 packed = (TunnelRes.mk channel seq status, 4, none) := by
  obtain ⟨a, b, c, d, rest, rfl⟩ := exists_cons4 buffer (by omega)
  refine ⟨_, TunnelRes_Pack_cons4 _ a b c d rest, ?_⟩
  simp [TunnelRes_Unpack_cons4]

theorem TunnelRes_roundtrip_witness :
    ([0, 0, 0, 0] : List Byte).length = 4 ∧
    ∃ packed, (TunnelRes.mk 1 0x2A TunnelResOk).Pack [0, 0, 0, 0] = some packed ∧
      TunnelRes.Unpack ⟨7, 7, 7⟩ packed = (TunnelRes.mk 1 0x2A TunnelResOk, 4, none) :=
  ⟨rfl, TunnelRes_roundtrip 1 0x2A TunnelResOk [0, 0, 0, 0] rfl ⟨7, 7, 7⟩⟩

/-- C2. Round trip of `TunnelReq`: let the CEMI codec round-trip the message
`m` (on a buffer of `cemi.Size m` bytes `cemi.Pack` does not panic and leaves
`cemi.Size m` bytes on which `cemi.Unpack` returns `m`, `cemi.Size m` bytes
consumed and no error), with `4 + cemi.Size m` a `uint`.  Then for every channel
and sequence number `Size()` is `4 + cemi.Size m`, `Pack` into a buffer of
exactly `Size()` bytes succeeds, and `Unpack` of the packed buffer (on any
receiver) returns no error, `4 + cemi.Size m` bytes consumed and a `TunnelReq`
equal to the original. -/
theorem TunnelReq_roundtrip {Message : Type} (cemi : Cemi Message) (channel seq : Byte)
    (m : Message) (hfit : 4 + cemi.Size m < 2 ^ 64)
    (hcodec : ∀ t : List Byte, t.length = cemi.Size m →
      ∃ t1, cemi.Pack t m = some t1 ∧ t1.length = cemi.Size m ∧
        ∀ p0, cemi.Unpack t1 p0 = (cemi.Size m, none, m))
    (buffer : List Byte) (hlen : buffer.length = (TunnelReq.mk channel seq m).Size cemi)
    (r0 : TunnelReq Message) :
    (TunnelReq.mk channel seq m).Size cemi = 4 + cemi.Size m ∧
    ∃ packed, (TunnelReq.mk channel seq m).Pack cemi buffer = some packed ∧
      TunnelReq.Unpack cemi r0 packed = (TunnelReq.mk channel seq m, 4 + cemi.Size m, none) := by
  have hsize : (TunnelReq.mk channel seq m).Size cemi = 4 + cemi.Size m :=
    uintAdd_of_fit 4 _ hfit
  refine ⟨hsize, ?_⟩
  rw [hsize] at hlen
  obtain ⟨a, b, c, d, rest, rfl⟩ := exists_cons4 buffer (by omega)
  have hrest : rest.length = cemi.Size m := by simp at hlen; omega
  obtain ⟨t1, hpack, _, hunpack⟩ := hcodec rest hrest
  refine ⟨4 :: channel :: seq :: 0 :: t1, ?_, ?_⟩
  · simp [TunnelReq_Pack_cons4, hpack]
  · simp [TunnelReq_Unpack_cons4, hunpack, uintAdd_of_fit 4 _ hfit]

theorem TunnelReq_roundtrip_witness :
    (TunnelReq.mk 9 0x3F [1, 2]).Size rawCemi = 4 + rawCemi.Size [1, 2] ∧
    ∃ packed, (TunnelReq.mk 9 0x3F [1, 2]).Pack rawCemi [0, 0, 0, 0, 0, 0] = some packed ∧
      TunnelReq.Unpack rawCemi ⟨0, 0, []⟩ packed =
        (TunnelReq.mk 9 0x3F [1, 2], 4 + rawCemi.Size [1, 2], none) :=
  TunnelReq_roundtrip rawCemi 9 0x3F [1, 2] (by decide)
    (by
      intro t ht
      match t, ht with
      | [x, y], _ => exact ⟨[1, 2], by simp [rawCemi], rfl, fun _ => rfl⟩)
    [0, 0, 0, 0, 0, 0] (by decide) ⟨0, 0, []⟩

/-- C3. Wire layout of `TunnelRes`: `Size()` is 4 whatever the fields hold,
and on every buffer of at least 4 bytes `Pack` succeeds and leaves `0x04`,
`Channel`, `SeqNumber` and the raw status byte in the first four positions;
channel `0x01`, seq `0x2A`, status Ok gives `04 01 2A 00`, and channel `0x07`,
seq `0x00`, status Unsupported gives `04 07 00 29`. -/
theorem TunnelRes_wire_layout (res : TunnelRes) (buffer : List Byte)
    (hlen : 4 ≤ buffer.length) :
    res.Size = 4 ∧
    (∃ packed, res.Pack buffer = some packed ∧
      packed.take 4 = [0x04, res.Channel, res.SeqNumber, res.Status]) ∧
    (TunnelRes.mk 0x01 0x2A TunnelResOk).Pack [0xFF, 0xFF, 0xFF, 0xFF] =
      some [0x04, 0x01, 0x2A, 0x00] ∧
    (TunnelRes.mk 0x07 0x00 TunnelResUnsupported).Pack [0xFF, 0xFF, 0xFF, 0xFF] =
      some [0x04, 0x07, 0x00, 0x29] := by
  obtain ⟨a, b, c, d, rest, rfl⟩ := exists_cons4 buffer hlen
  refine ⟨rfl, ⟨_, TunnelRes_Pack_cons4 res a b c d rest, by simp⟩, ?_, ?_⟩
  · rw [TunnelRes_Pack_cons4]; rfl
  · rw [TunnelRes_Pack_cons4]; rfl

theorem TunnelRes_wire_layout_witness :
    4 ≤ ([9, 9, 9, 9, 9] : List Byte).length ∧
    (TunnelRes.mk 5 0x11 0x2B).Size = 4 ∧
    (∃ packed, (TunnelRes.mk 5 0x11 0x2B).Pack [9, 9, 9, 9, 9] = some packed ∧
      packed.take 4 = [0x04, 5, 0x11, 0x2B]) :=
  ⟨by decide,
    (TunnelRes_wire_layout ⟨5, 0x11, 0x2B⟩ [9, 9, 9, 9, 9] (by decide)).1,
    (TunnelRes_wire_layout ⟨5, 0x11, 0x2B⟩ [9, 9, 9, 9, 9] (by decide)).2.1⟩

/-- C4. Wire layout of `TunnelReq`: when `4 + cemi.Size(Payload)` is a `uint`,
`Size()` is `4 + cemi.Size(Payload)`, and on every buffer of at least `Size()`
bytes `Pack` hands `buffer[4:]` to `cemi.Pack`, panics only if `cemi.Pack`
does, and otherwise leaves `0x04`, `Channel`, `SeqNumber`, `0x00` in positions
0..3 (whatever the buffer held) followed by exactly the bytes `cemi.Pack`
left in `buffer[4:]`. -/
theorem TunnelReq_wire_layout {Message : Type} (cemi : Cemi Message) (req : TunnelReq Message)
    (buffer : List Byte) (hfit : 4 + cemi.Size req.Payload < 2 ^ 64)
    (hlen : req.Size cemi ≤ buffer.length) :
    req.Size cemi = 4 + cemi.Size req.Payload ∧
    (∀ t, cemi.Pack (buffer.drop 4) req.Payload = some t →
      ∃ packed, req.Pack cemi buffer = some packed ∧
        packed.take 4 = [0x04, req.Channel, req.SeqNumber, 0x00] ∧ packed.drop 4 = t) ∧
    (cemi.Pack (buffer.drop 4) req.Payload = none → req.Pack cemi buffer = none) := by
  have hsize : req.Size cemi = 4 + cemi.Size req.Payload := uintAdd_of_fit 4 _ hfit
  rw [hsize] at hlen
  obtain ⟨a, b, c, d, rest, rfl⟩ := exists_cons4 buffer (by omega)
  refine ⟨hsize, ?_, ?_⟩
  · intro t ht
    simp only [List.drop_succ_cons, List.drop_zero] at ht
    exact ⟨_, by rw [TunnelReq_Pack_cons4, ht]; rfl, by simp, by simp⟩
  · intro hnone
    simp only [List.drop_succ_cons, List.drop_zero] at hnone
    rw [TunnelReq_Pack_cons4, hnone]; rfl

theorem TunnelReq_wire_layout_witness :
    4 + rawCemi.Size [0xA, 0xB] < 2 ^ 64 ∧
    (TunnelReq.mk 9 0x3F [0xA, 0xB]).Size rawCemi ≤
      ([7, 7, 7, 7, 7, 7, 7] : List Byte).length ∧
    (TunnelReq.mk 9 0x3F [0xA, 0xB]).Size rawCemi = 6 ∧
    (TunnelReq.mk 9 0x3F [0xA, 0xB]).Pack rawCemi [7, 7, 7, 7, 7, 7, 7] =
      some [0x04, 9, 0x3F, 0x00, 0xA, 0xB, 7] := by
  have h := TunnelReq_wire_layout rawCemi (TunnelReq.mk 9 0x3F [0xA, 0xB])
    [7, 7, 7, 7, 7, 7, 7] (by decide) (by decide)
  obtain ⟨packed, hp, htake, hdrop⟩ := h.2.1 [0xA, 0xB, 7] (by decide)
  refine ⟨by decide, by decide, h.1, ?_⟩
  rw [hp, ← List.take_append_drop 4 packed, htake, hdrop]
  rfl

/-! ## Decoding -/

/-- C5. Decoding a well-formed response: on every input of at least 4 bytes
whose first byte is 4, `TunnelRes.Unpack` returns no error, reports 4 bytes
consumed and sets `Channel`, `SeqNumber`, `Status` to bytes 1, 2, 3 verbatim;
the bytes after the fourth play no part (`Unpack(data)` and `Unpack(data[0:4])`
agree on count, error and decoded value); `04 05 11 2B` decodes to channel 5,
seq 17, status `0x2B`, 4 bytes consumed. -/
theorem TunnelRes_Unpack_wellformed (r0 : TunnelRes) (data : List Byte)
    (hlen : 4 ≤ data.length) (h0 : data[0] = 4) :
    TunnelRes.Unpack r0 data = (TunnelRes.mk data[1] data[2] data[3], 4, none) ∧
    TunnelRes.Unpack r0 data = TunnelRes.Unpack r0 (data.take 4) ∧
    TunnelRes.Unpack r0 [0x04, 0x05, 0x11, 0x2B] = (TunnelRes.mk 5 17 0x2B, 4, none) := by
  obtain ⟨a, b, c, d, rest, rfl⟩ := exists_cons4 data hlen
  simp only [List.getElem_cons_zero] at h0
  subst h0
  refine ⟨?_, ?_, ?_⟩
  · simp [TunnelRes_Unpack_cons4]
  · simp [TunnelRes_Unpack_cons4]
  · rw [TunnelRes_Unpack_cons4]; rfl

theorem TunnelRes_Unpack_wellformed_witness :
    4 ≤ ([4, 1, 2, 0x7F, 0xEE, 0xEE] : List Byte).length ∧
    TunnelRes.Unpack ⟨0, 0, 0⟩ [4, 1, 2, 0x7F, 0xEE, 0xEE] =
      (TunnelRes.mk 1 2 0x7F, 4, none) :=
  ⟨by decide,
    (TunnelRes_Unpack_wellformed ⟨0, 0, 0⟩ [4, 1, 2, 0x7F, 0xEE, 0xEE] (by decide) rfl).1⟩

/-- C6, as stated, fails: the one-byte input `05` has a first byte other than
4, yet both decoders stop with the short-input error after 1 byte, not with
the length-mismatch error after 4. -/
theorem length_byte_rejection_counterexample :
    ([5] : List Byte)[0]? = some 5 ∧ (5 : Byte) ≠ 4 ∧
    (TunnelRes.Unpack ⟨0, 0, 0⟩ [5]).2 = (1, some Error.shortInput) ∧
    (TunnelReq.Unpack rawCemi ⟨0, 0, []⟩ [5]).2 = (1, some Error.shortInput) ∧
    (TunnelRes.Unpack ⟨0, 0, 0⟩ [5]).2 ≠ (4, some lengthMismatch) ∧
    (TunnelReq.Unpack rawCemi ⟨0, 0, []⟩ [5]).2 ≠ (4, some lengthMismatch) := by
  refine ⟨rfl, by decide, ?_, ?_, ?_, ?_⟩ <;>
    simp [TunnelRes.Unpack, TunnelReq.Unpack, UnpackSome, uintAdd, lengthMismatch]

/-- C6, amended. Length-byte rejection: on every input of at least 4 bytes
whose first byte is not 4, both `TunnelRes.Unpack` and `TunnelReq.Unpack` fail
with the length-mismatch error and report exactly 4 bytes consumed. -/
theorem length_byte_rejection {Message : Type} (cemi : Cemi Message) (req : TunnelReq Message)
    (r0 : TunnelRes) (data : List Byte) (hlen : 4 ≤ data.length) (h0 : data[0] ≠ 4) :
    (TunnelRes.Unpack r0 data).2 = (4, some lengthMismatch) ∧
    (TunnelReq.Unpack cemi req data).2 = (4, some lengthMismatch) := by
  obtain ⟨a, b, c, d, rest, rfl⟩ := exists_cons4 data hlen
  simp only [List.getElem_cons_zero] at h0
  simp [TunnelRes_Unpack_cons4, TunnelReq_Unpack_cons4, h0]

theorem length_byte_rejection_witness :
    4 ≤ ([5, 0, 0, 0] : List Byte).length ∧ ([5, 0, 0, 0] : List Byte)[0] ≠ 4 ∧
    (TunnelRes.Unpack ⟨1, 2, 3⟩ [5, 0, 0, 0]).2 = (4, some lengthMismatch) ∧
    (TunnelReq.Unpack rawCemi ⟨1, 2, []⟩ [5, 0, 0, 0]).2 = (4, some lengthMismatch) :=
  ⟨by decide, by decide,
    length_byte_rejection rawCemi ⟨1, 2, []⟩ ⟨1, 2, 3⟩ [5, 0, 0, 0] (by decide) (by decide)⟩

/-- C7. Exact failure condition of `TunnelRes.Unpack`: it returns no error
iff the input has at least 4 bytes and its first byte is 4; the short-input
error iff the input has fewer than 4 bytes; the length-mismatch error iff the
input has at least 4 bytes and its first byte is not 4. -/
theorem TunnelRes_Unpack_failure_condition (r0 : TunnelRes) (data : List Byte) :
    ((TunnelRes.Unpack r0 data).2.2 = none ↔ 4 ≤ data.length ∧ data[0]? = some 4) ∧
    ((TunnelRes.Unpack r0 data).2.2 = some Error.shortInput ↔ data.length < 4) ∧
    ((TunnelRes.Unpack r0 data).2.2 = some lengthMismatch ↔
      4 ≤ data.length ∧ data[0]? ≠ some 4) := by
  rcases Nat.lt_or_ge data.length 4 with hlt | hge
  · have hn : ¬ 4 ≤ data.length := by omega
    rcases short_cases data hlt with rfl | ⟨a, rfl⟩ | ⟨a, b, rfl⟩ | ⟨a, b, c, rfl⟩ <;>
      simp [TunnelRes.Unpack, UnpackSome, uintAdd, lengthMismatch]
  · obtain ⟨a, b, c, d, rest, rfl⟩ := exists_cons4 data hge
    by_cases ha : a = 4 <;> simp [TunnelRes_Unpack_cons4, ha, lengthMismatch]

/-- C8. Short input: on every input of fewer than 4 bytes both decoders
return what `util.UnpackSome` returned, namely the short-input error with
bytes-consumed equal to the length of the input (0 for the empty input, 3 for
`04 01 02`); the outcome of `TunnelReq.Unpack` is the same under any two CEMI
codecs and `Payload` is left as it was, so `cemi.Unpack` takes no part. -/
theorem short_input {Message : Type} (cemi cemi2 : Cemi Message) (req : TunnelReq Message)
    (r0 : TunnelRes) (data : List Byte) (hlen : data.length < 4) :
    (TunnelRes.Unpack r0 data).2 = (data.length, some Error.shortInput) ∧
    (TunnelReq.Unpack cemi req data).2 = (data.length, some Error.shortInput) ∧
    (TunnelRes.Unpack r0 data).2 =
      (UnpackSome data [0, r0.Channel, r0.SeqNumber, r0.Status]).2 ∧
    (TunnelReq.Unpack cemi req data).2 =
      (UnpackSome data [0, req.Channel, req.SeqNumber, 0]).2 ∧
    TunnelReq.Unpack cemi req data = TunnelReq.Unpack cemi2 req data ∧
    (TunnelReq.Unpack cemi req data).1.Payload = req.Payload ∧
    (TunnelRes.Unpack r0 []).2 = (0, some Error.shortInput) ∧
    (TunnelReq.Unpack cemi req []).2 = (0, some Error.shortInput) ∧
    (TunnelRes.Unpack r0 [0x04, 0x01, 0x02]).2 = (3, some Error.shortInput) ∧
    (TunnelReq.Unpack cemi req [0x04, 0x01, 0x02]).2 = (3, some Error.shortInput) := by
  rcases short_cases data hlen with rfl | ⟨a, rfl⟩ | ⟨a, b, rfl⟩ | ⟨a, b, c, rfl⟩ <;>
    simp [TunnelRes.Unpack, TunnelReq.Unpack, UnpackSome, uintAdd]

theorem short_input_witness :
    ([4, 1] : List Byte).length < 4 ∧
    (TunnelRes.Unpack ⟨7, 8, 9⟩ [4, 1]).2 = (([4, 1] : List Byte).length, some Error.shortInput) ∧
    (TunnelReq.Unpack rawCemi ⟨7, 8, [6]⟩ [4, 1]).2 =
      (([4, 1] : List Byte).length, some Error.shortInput) :=
  ⟨by decide,
    (short_input rawCemi rawCemi ⟨7, 8, [6]⟩ ⟨7, 8, 9⟩ [4, 1] (by decide)).1,
    (short_input rawCemi rawCemi ⟨7, 8, [6]⟩ ⟨7, 8, 9⟩ [4, 1] (by decide)).2.1⟩

/-- C9. Payload delegation in `TunnelReq.Unpack`: on every input of at least
4 bytes whose first byte is 4, with `(m, e, p)` the count, error and final
message of `cemi.Unpack` run on `data[4:]` and the receiver's `Payload`,
`TunnelReq.Unpack` leaves `Channel` = byte 1, `SeqNumber` = byte 2 and
`Payload` = `p`, returns the `uint` sum `4 + m` (the number `4 + m` whenever
that is a `uint`) and the error `e` unchanged; so it succeeds iff `cemi.Unpack`
does. -/
theorem TunnelReq_Unpack_delegation {Message : Type} (cemi : Cemi Message)
    (req : TunnelReq Message) (data : List Byte) (hlen : 4 ≤ data.length) (h0 : data[0] = 4) :
    TunnelReq.Unpack cemi req data =
      (TunnelReq.mk data[1] data[2] (cemi.Unpack (data.drop 4) req.Payload).2.2,
        uintAdd 4 (cemi.Unpack (data.drop 4) req.Payload).1,
        (cemi.Unpack (data.drop 4) req.Payload).2.1) ∧
    (4 + (cemi.Unpack (data.drop 4) req.Payload).1 < 2 ^ 64 →
      (TunnelReq.Unpack cemi req data).2.1 = 4 + (cemi.Unpack (data.drop 4) req.Payload).1) ∧
    (TunnelReq.Unpack cemi req data).2.2 = (cemi.Unpack (data.drop 4) req.Payload).2.1 ∧
    ((TunnelReq.Unpack cemi req data).2.2 = none ↔
      (cemi.Unpack (data.drop 4) req.Payload).2.1 = none) := by
  obtain ⟨a, b, c, d, rest, rfl⟩ := exists_cons4 data hlen
  simp only [List.getElem_cons_zero] at h0
  subst h0
  refine ⟨by simp [TunnelReq_Unpack_cons4], ?_, by simp [TunnelReq_Unpack_cons4],
    by simp [TunnelReq_Unpack_cons4]⟩
  intro hfit
  simp only [List.drop_succ_cons, List.drop_zero] at hfit
  simp [TunnelReq_Unpack_cons4, uintAdd_of_fit 4 _ hfit]

theorem TunnelReq_Unpack_delegation_witness :
    4 ≤ ([4, 9, 0x3F, 0, 0xA, 0xB] : List Byte).length ∧
    TunnelReq.Unpack rawCemi ⟨0, 0, []⟩ [4, 9, 0x3F, 0, 0xA, 0xB] =
      (TunnelReq.mk 9 0x3F [0xA, 0xB], 6, none) :=
  ⟨by decide,
    (TunnelReq_Unpack_delegation rawCemi ⟨0, 0, []⟩ [4, 9, 0x3F, 0, 0xA, 0xB]
      (by decide) rfl).1⟩

/-- C10. Reserved byte tolerance: two inputs of at least 4 bytes with first
byte 4 that agree everywhere except possibly at offset 3 give the same
bytes-consumed, the same error and the same resulting `TunnelReq`; and on such
an input, whatever byte 3 is, `TunnelReq.Unpack` succeeds as soon as
`cemi.Unpack` accepts `data[4:]`. -/
theorem TunnelReq_Unpack_reserved_tolerance {Message : Type} (cemi : Cemi Message)
    (req : TunnelReq Message) (data data2 : List Byte)
    (hlen : 4 ≤ data.length) (h0 : data[0] = 4) (hlen2 : data2.length = data.length)
    (hsame : ∀ i : Nat, i ≠ 3 → data2[i]? = data[i]?) :
    TunnelReq.Unpack cemi req data2 = TunnelReq.Unpack cemi req data ∧
    ((cemi.Unpack (data.drop 4) req.Payload).2.1 = none →
      (TunnelReq.Unpack cemi req data).2.2 = none) := by
  obtain ⟨a, b, c, d, rest, rfl⟩ := exists_cons4 data hlen
  obtain ⟨a2, b2, c2, d2, rest2, rfl⟩ := exists_cons4 data2 (by omega)
  simp only [List.getElem_cons_zero] at h0
  subst h0
  have e0 := hsame 0 (by decide)
  have e1 := hsame 1 (by decide)
  have e2 := hsame 2 (by decide)
  simp at e0 e1 e2
  have erest : rest2 = rest := by
    apply List.ext_getElem?
    intro i
    have := hsame (i + 4) (by omega)
    simpa using this
  subst e0 e1 e2 erest
  refine ⟨by simp [TunnelReq_Unpack_cons4], ?_⟩
  intro hok
  simp only [List.drop_succ_cons, List.drop_zero] at hok
  simp [TunnelReq_Unpack_cons4, hok]

theorem TunnelReq_Unpack_reserved_tolerance_witness :
    4 ≤ ([4, 9, 0x3F, 0, 0xA, 0xB] : List Byte).length ∧
    TunnelReq.Unpack rawCemi ⟨0, 0, []⟩ [4, 9, 0x3F, 0xFF, 0xA, 0xB] =
      TunnelReq.Unpack rawCemi ⟨0, 0, []⟩ [4, 9, 0x3F, 0, 0xA, 0xB] ∧
    (TunnelReq.Unpack rawCemi ⟨0, 0, []⟩ [4, 9, 0x3F, 0xFF, 0xA, 0xB]).2.2 = none := by
  have h := TunnelReq_Unpack_reserved_tolerance rawCemi ⟨0, 0, []⟩
    [4, 9, 0x3F, 0, 0xA, 0xB] [4, 9, 0x3F, 0xFF, 0xA, 0xB] (by decide) rfl rfl
    (by
      intro i hi
      match i, hi with
      | 0, _ => rfl
      | 1, _ => rfl
      | 2, _ => rfl
      | 3, h3 => exact absurd rfl h3
      | _ + 4, _ => rfl)
  exact ⟨by decide, h.1, by rw [h.1]; exact h.2 rfl⟩

/-! ## Status codes -/

set_option maxRecDepth 100000 in
theorem String_unnamed_data :
    ∀ b : Byte, b ≠ 0 → b ≠ 0x29 →
      (TunnelResStatus.String b).data = '0' :: 'x' :: Nat.toDigits 16 b.val := by
  decide

set_option maxRecDepth 100000 in
theorem String_unnamed_length :
    ∀ b : Byte, b ≠ 0 → b ≠ 0x29 →
      (TunnelResStatus.String b).length = if b.val < 16 then 3 else 4 := by
  decide

set_option maxRecDepth 100000 in
theorem String_named_iff :
    ∀ s : Byte, (TunnelResStatus.String s = "Ok" ↔ s = 0) ∧
      (TunnelResStatus.String s = "Unsupported" ↔ s = 0x29) := by
  decide

/-- C11. Unknown-status preservation: for every channel `c`, sequence number
`s` and status byte `b`, `TunnelRes.Unpack` accepts the frame `04 c s b`
(4 bytes consumed, no error) and `Pack` of the decoded value into a 4-byte
buffer yields exactly `04 c s b` again, so its fourth byte is `b`. -/
theorem TunnelRes_decode_reencode (c s b : Byte) (r0 : TunnelRes) (buffer : List Byte)
    (hlen : buffer.length = 4) :
    (TunnelRes.Unpack r0 [0x04, c, s, b]).2 = (4, none) ∧
    (TunnelRes.Unpack r0 [0x04, c, s, b]).1.Status = b ∧
    (TunnelRes.Unpack r0 [0x04, c, s, b]).1.Pack buffer = some [0x04, c, s, b] ∧
    ((TunnelRes.Unpack r0 [0x04, c, s, b]).1.Pack buffer).map (fun p => p[3]?) =
      some (some b) := by
  obtain ⟨w, x, y, z, rest, rfl⟩ := exists_cons4 buffer (by omega)
  have hrest : rest = [] := by
    cases rest with
    | nil => rfl
    | cons _ _ => simp at hlen
  subst hrest
  simp [TunnelRes_Unpack_cons4, TunnelRes_Pack_cons4]

theorem TunnelRes_decode_reencode_witness :
    ([0, 0, 0, 0] : List Byte).length = 4 ∧
    (TunnelRes.Unpack ⟨0, 0, 0⟩ [0x04, 0x05, 0x11, 0x2B]).1.Pack [0, 0, 0, 0] =
      some [0x04, 0x05, 0x11, 0x2B] :=
  ⟨rfl, (TunnelRes_decode_reencode 0x05 0x11 0x2B ⟨0, 0, 0⟩ [0, 0, 0, 0] rfl).2.2.1⟩

/-- C12, as stated, fails: status `0x05` renders as the 3-character string
`0x5`, not as the zero-padded `0x05`. -/
theorem String_zero_padding_counterexample :
    (0x05 : TunnelResStatus) ≠ 0x00 ∧ (0x05 : TunnelResStatus) ≠ 0x29 ∧
    TunnelResStatus.String 0x05 = "0x5" ∧
    TunnelResStatus.String 0x05 ≠ "0x05" ∧
    (TunnelResStatus.String 0x05).length = 3 := by
  decide

/-- C12, amended. Rendering of unnamed statuses: for every status byte `b`
other than `0x00` and `0x29`, `String()` is `0x` followed by the lower-case
hexadecimal digits of `b` without leading zeros: two digits (4 characters) when
`b` is at least `0x10`, one digit (3 characters) below; `0x2A` renders as
`0x2a`, `0x2B` as `0x2b`, `0x05` as `0x5`. -/
theorem String_unnamed (b : TunnelResStatus) (hok : b ≠ 0x00) (hun : b ≠ 0x29) :
    TunnelResStatus.String b = String.mk ('0' :: 'x' :: Nat.toDigits 16 b.val) ∧
    (0x10 ≤ b.val → (TunnelResStatus.String b).length = 4) ∧
    (b.val < 0x10 → (TunnelResStatus.String b).length = 3) ∧
    TunnelResStatus.String 0x2A = "0x2a" ∧
    TunnelResStatus.String 0x2B = "0x2b" ∧
    TunnelResStatus.String 0x05 = "0x5" := by
  have hdata := String_unnamed_data b hok hun
  have hlength := String_unnamed_length b hok hun
  refine ⟨?_, ?_, ?_, by decide, by decide, by decide⟩
  · rw [← hdata]
  · intro h
    rw [hlength, if_neg (by omega)]
  · intro h
    rw [hlength, if_pos h]

theorem String_unnamed_witness :
    (0xFF : TunnelResStatus) ≠ 0x00 ∧ (0xFF : TunnelResStatus) ≠ 0x29 ∧
    TunnelResStatus.String 0xFF = String.mk ('0' :: 'x' :: Nat.toDigits 16 255) :=
  ⟨by decide, by decide, (String_unnamed 0xFF (by decide) (by decide)).1⟩

/-- C13. Rendering of named statuses: `TunnelResOk` is `0x00` and
`TunnelResUnsupported` is `0x29`; `String()` returns `Ok` iff the status is
`0x00` and `Unsupported` iff it is `0x29`; it returns a string for every
status value. -/
theorem String_named :
    TunnelResOk = 0x00 ∧ TunnelResUnsupported = 0x29 ∧
    (∀ s : TunnelResStatus, TunnelResStatus.String s = "Ok" ↔ s = 0x00) ∧
    (∀ s : TunnelResStatus, TunnelResStatus.String s = "Unsupported" ↔ s = 0x29) ∧
    (∀ s : TunnelResStatus, ∃ str : String, TunnelResStatus.String s = str) :=
  ⟨rfl, rfl, fun s => (String_named_iff s).1, fun s => (String_named_iff s).2,
    fun _ => ⟨_, rfl⟩⟩

/-! ## Purity, bounds and messages -/

/-- C14, as stated, fails on failing inputs: on `05 00 00 00` (length
mismatch) `TunnelReq.Unpack` keeps the receiver's `Payload`, and on the empty
input `TunnelRes.Unpack` keeps all of the receiver's fields, so two different
receivers end in two different values although count and error agree.  The
codec used has a result that depends on its input bytes only. -/
theorem Unpack_purity_counterexample :
    (∀ d p1 p2, rawCemi.Unpack d p1 = rawCemi.Unpack d p2) ∧
    (TunnelReq.Unpack rawCemi ⟨0, 0, [1]⟩ [5, 0, 0, 0]).2 =
      (TunnelReq.Unpack rawCemi ⟨0, 0, [2]⟩ [5, 0, 0, 0]).2 ∧
    (TunnelReq.Unpack rawCemi ⟨0, 0, [1]⟩ [5, 0, 0, 0]).1.Payload = [1] ∧
    (TunnelReq.Unpack rawCemi ⟨0, 0, [2]⟩ [5, 0, 0, 0]).1.Payload = [2] ∧
    (TunnelReq.Unpack rawCemi ⟨0, 0, [1]⟩ [5, 0, 0, 0]).1.Payload ≠
      (TunnelReq.Unpack rawCemi ⟨0, 0, [2]⟩ [5, 0, 0, 0]).1.Payload ∧
    (TunnelRes.Unpack ⟨1, 1, 1⟩ []).2 = (TunnelRes.Unpack ⟨2, 2, 2⟩ []).2 ∧
    (TunnelRes.Unpack ⟨1, 1, 1⟩ []).1 ≠ (TunnelRes.Unpack ⟨2, 2, 2⟩ []).1 := by
  refine ⟨fun _ _ _ => rfl, ?_, ?_, ?_, ?_, ?_, ?_⟩ <;>
    simp [TunnelRes.Unpack, TunnelReq_Unpack_cons4, UnpackSome]

/-- C14, amended. For every input and every two initial receivers, both
decoders return the same bytes-consumed and the same error (for
`TunnelReq.Unpack`, given a CEMI decoder whose result depends on its input
bytes only).  The resulting value is the same as well when every field was
written: for `TunnelRes` on inputs of at least 4 bytes, for `TunnelReq` on
inputs of at least 4 bytes whose first byte is 4; on inputs of at least 4
bytes `TunnelReq.Unpack` always leaves the same `Channel` and `SeqNumber`. -/
theorem Unpack_purity {Message : Type} (cemi : Cemi Message)
    (hpure : ∀ d p1 p2, cemi.Unpack d p1 = cemi.Unpack d p2)
    (data : List Byte) (r1 r2 : TunnelRes) (q1 q2 : TunnelReq Message) :
    (TunnelRes.Unpack r1 data).2 = (TunnelRes.Unpack r2 data).2 ∧
    (TunnelReq.Unpack cemi q1 data).2 = (TunnelReq.Unpack cemi q2 data).2 ∧
    (4 ≤ data.length → TunnelRes.Unpack r1 data = TunnelRes.Unpack r2 data) ∧
    (4 ≤ data.length → data[0]? = some 4 →
      TunnelReq.Unpack cemi q1 data = TunnelReq.Unpack cemi q2 data) ∧
    (4 ≤ data.length →
      (TunnelReq.Unpack cemi q1 data).1.Channel = (TunnelReq.Unpack cemi q2 data).1.Channel ∧
      (TunnelReq.Unpack cemi q1 data).1.SeqNumber =
        (TunnelReq.Unpack cemi q2 data).1.SeqNumber) := by
  rcases Nat.lt_or_ge data.length 4 with hlt | hge
  · have hn : ¬ 4 ≤ data.length := by omega
    rcases short_cases data hlt with rfl | ⟨a, rfl⟩ | ⟨a, b, rfl⟩ | ⟨a, b, c, rfl⟩ <;>
      simp [TunnelRes.Unpack, TunnelReq.Unpack, UnpackSome, uintAdd]
  · obtain ⟨a, b, c, d, rest, rfl⟩ := exists_cons4 data hge
    have hp := hpure rest q1.Payload q2.Payload
    by_cases ha : a = 4 <;>
      simp [TunnelRes_Unpack_cons4, TunnelReq_Unpack_cons4, ha, hp]

theorem Unpack_purity_witness :
    (∀ d p1 p2, rawCemi.Unpack d p1 = rawCemi.Unpack d p2) ∧
    TunnelReq.Unpack rawCemi ⟨0, 0, [1]⟩ [4, 9, 0x3F, 0, 0xA] =
      TunnelReq.Unpack rawCemi ⟨7, 7, [2]⟩ [4, 9, 0x3F, 0, 0xA] :=
  ⟨fun _ _ _ => rfl,
    (Unpack_purity rawCemi (fun _ _ _ => rfl) [4, 9, 0x3F, 0, 0xA] ⟨0, 0, 0⟩ ⟨1, 1, 1⟩
      ⟨0, 0, [1]⟩ ⟨7, 7, [2]⟩).2.2.2.1 (by decide) rfl⟩

/-- C15. Encoders on an adequately sized buffer: on a buffer of at least 4
bytes `TunnelRes.Pack` does not panic; on a buffer of at least `Size()` bytes,
with `4 + cemi.Size(Payload)` a `uint`, the four stores and the slice
`buffer[4:]` of `TunnelReq.Pack` are in range, `cemi.Pack` is handed a tail of
at least `cemi.Size(Payload)` bytes, and `TunnelReq.Pack` panics only if
`cemi.Pack` does; on a buffer of fewer than 4 bytes both `Pack`s panic. -/
theorem Pack_bounds {Message : Type} (cemi : Cemi Message) (req : TunnelReq Message)
    (res : TunnelRes) (buffer : List Byte) :
    (4 ≤ buffer.length → ∃ packed, res.Pack buffer = some packed) ∧
    (4 + cemi.Size req.Payload < 2 ^ 64 → req.Size cemi ≤ buffer.length →
      (∃ b3, (store buffer 0 4 >>= fun b0 => store b0 1 req.Channel >>= fun b1 =>
          store b1 2 req.SeqNumber >>= fun b2 => store b2 3 0) = some b3 ∧
        b3.drop 4 = buffer.drop 4) ∧
      cemi.Size req.Payload ≤ (buffer.drop 4).length ∧
      (req.Pack cemi buffer = none ↔ cemi.Pack (buffer.drop 4) req.Payload = none)) ∧
    (buffer.length < 4 → res.Pack buffer = none ∧ req.Pack cemi buffer = none) := by
  refine ⟨?_, ?_, ?_⟩
  · intro hlen
    obtain ⟨a, b, c, d, rest, rfl⟩ := exists_cons4 buffer hlen
    exact ⟨_, TunnelRes_Pack_cons4 res a b c d rest⟩
  · intro hfit hlen
    have hsize : req.Size cemi = 4 + cemi.Size req.Payload := uintAdd_of_fit 4 _ hfit
    rw [hsize] at hlen
    obtain ⟨a, b, c, d, rest, rfl⟩ := exists_cons4 buffer (by omega)
    refine ⟨⟨4 :: req.Channel :: req.SeqNumber :: 0 :: rest, by simp [store], by simp⟩, ?_, ?_⟩
    · simp at hlen ⊢
      omega
    · rw [TunnelReq_Pack_cons4]
      simp
  · intro hlen
    rcases short_cases buffer hlen with rfl | ⟨a, rfl⟩ | ⟨a, b, rfl⟩ | ⟨a, b, c, rfl⟩ <;>
      simp [TunnelRes.Pack, TunnelReq.Pack, store]

theorem Pack_bounds_witness :
    (∃ packed, (TunnelRes.mk 1 2 3).Pack [0, 0, 0, 0, 0, 0] = some packed) ∧
    rawCemi.Size [0xA, 0xB] ≤ (([0, 0, 0, 0, 0, 0] : List Byte).drop 4).length ∧
    (TunnelRes.mk 1 2 3).Pack [0, 0, 0] = none ∧
    (TunnelReq.mk 1 2 [0xA, 0xB]).Pack rawCemi [0, 0, 0] = none :=
  ⟨(Pack_bounds rawCemi ⟨1, 2, [0xA, 0xB]⟩ ⟨1, 2, 3⟩ [0, 0, 0, 0, 0, 0]).1 (by decide),
    ((Pack_bounds rawCemi ⟨1, 2, [0xA, 0xB]⟩ ⟨1, 2, 3⟩ [0, 0, 0, 0, 0, 0]).2.1
      (by decide) (by decide)).2.1,
    ((Pack_bounds rawCemi ⟨1, 2, [0xA, 0xB]⟩ ⟨1, 2, 3⟩ [0, 0, 0]).2.2 (by decide)).1,
    ((Pack_bounds rawCemi ⟨1, 2, [0xA, 0xB]⟩ ⟨1, 2, 3⟩ [0, 0, 0]).2.2 (by decide)).2⟩

/-- C16, as stated, fails: on `05 00 00 00` both decoders fail with the error
built by `errors.New("Length header is not 4")`, whose message starts with a
capital `L`; it is not the string `length header is not 4`. -/
theorem length_mismatch_message_counterexample :
    (TunnelRes.Unpack ⟨0, 0, 0⟩ [5, 0, 0, 0]).2.2 =
      some (Error.errorsNew "Length header is not 4") ∧
    (TunnelReq.Unpack rawCemi ⟨0, 0, []⟩ [5, 0, 0, 0]).2.2 =
      some (Error.errorsNew "Length header is not 4") ∧
    ((TunnelRes.Unpack ⟨0, 0, 0⟩ [5, 0, 0, 0]).2.2.bind Error.message) ≠
      some "length header is not 4" ∧
    ((TunnelReq.Unpack rawCemi ⟨0, 0, []⟩ [5, 0, 0, 0]).2.2.bind Error.message) ≠
      some "length header is not 4" := by
  refine ⟨?_, ?_, ?_, ?_⟩ <;>
    simp [TunnelRes_Unpack_cons4, TunnelReq_Unpack_cons4, lengthMismatch, Error.message]

/-- C16, amended. Length-mismatch message: whenever `TunnelReq.Unpack` or
`TunnelRes.Unpack` fails because the structure-length byte is not 4 (an input
of at least 4 bytes whose first byte is not 4), the error's message is exactly
the string `Length header is not 4`. -/
theorem length_mismatch_message {Message : Type} (cemi : Cemi Message)
    (req : TunnelReq Message) (r0 : TunnelRes) (data : List Byte)
    (hlen : 4 ≤ data.length) (h0 : data[0] ≠ 4) :
    ((TunnelRes.Unpack r0 data).2.2.bind Error.message) = some "Length header is not 4" ∧
    ((TunnelReq.Unpack cemi req data).2.2.bind Error.message) =
      some "Length header is not 4" := by
  obtain ⟨a, b, c, d, rest, rfl⟩ := exists_cons4 data hlen
  simp only [List.getElem_cons_zero] at h0
  simp [TunnelRes_Unpack_cons4, TunnelReq_Unpack_cons4, h0, lengthMismatch, Error.message]

theorem length_mismatch_message_witness :
    4 ≤ ([3, 1, 2, 0, 9] : List Byte).length ∧ ([3, 1, 2, 0, 9] : List Byte)[0] ≠ 4 ∧
    ((TunnelRes.Unpack ⟨0, 0, 0⟩ [3, 1, 2, 0, 9]).2.2.bind Error.message) =
      some "Length header is not 4" ∧
    ((TunnelReq.Unpack rawCemi ⟨0, 0, []⟩ [3, 1, 2, 0, 9]).2.2.bind Error.message) =
      some "Length header is not 4" :=
  ⟨by decide, by decide,
    length_mismatch_message rawCemi ⟨0, 0, []⟩ ⟨0, 0, 0⟩ [3, 1, 2, 0, 9] (by decide) (by decide)⟩

/-! ## Effects on the receiver and on the buffer -/

/-- C17. Decoding is not atomic on a length mismatch: on every input of at
least 4 bytes whose first byte is not 4, and for every initial receiver,
`TunnelRes.Unpack` returns the length-mismatch error with `Channel`,
`SeqNumber`, `Status` already overwritten by bytes 1, 2, 3, and
`TunnelReq.Unpack` returns the same error with `Channel` and `SeqNumber`
overwritten by bytes 1 and 2. -/
theorem Unpack_not_atomic {Message : Type} (cemi : Cemi Message) (req : TunnelReq Message)
    (r0 : TunnelRes) (data : List Byte) (hlen : 4 ≤ data.length) (h0 : data[0] ≠ 4) :
    TunnelRes.Unpack r0 data =
      (TunnelRes.mk data[1] data[2] data[3], 4, some lengthMismatch) ∧
    (TunnelReq.Unpack cemi req data).2.2 = some lengthMismatch ∧
    (TunnelReq.Unpack cemi req data).1.Channel = data[1] ∧
    (TunnelReq.Unpack cemi req data).1.SeqNumber = data[2] := by
  obtain ⟨a, b, c, d, rest, rfl⟩ := exists_cons4 data hlen
  simp only [List.getElem_cons_zero] at h0
  simp [TunnelRes_Unpack_cons4, TunnelReq_Unpack_cons4, h0]

theorem Unpack_not_atomic_witness :
    4 ≤ ([5, 0xA, 0xB, 0xC] : List Byte).length ∧ ([5, 0xA, 0xB, 0xC] : List Byte)[0] ≠ 4 ∧
    TunnelRes.Unpack ⟨1, 2, 3⟩ [5, 0xA, 0xB, 0xC] =
      (TunnelRes.mk 0xA 0xB 0xC, 4, some lengthMismatch) ∧
    (TunnelRes.mk 0xA 0xB 0xC) ≠ ⟨1, 2, 3⟩ :=
  ⟨by decide, by decide,
    (Unpack_not_atomic rawCemi ⟨1, 2, []⟩ ⟨1, 2, 3⟩ [5, 0xA, 0xB, 0xC] (by decide)
      (by decide)).1,
    by decide⟩

/-- C18. Payload is untouched when the header is rejected: on every input of
fewer than 4 bytes, or of at least 4 bytes with a first byte other than 4,
`TunnelReq.Unpack` fails, its whole outcome is the same under any two CEMI
codecs (`cemi.Unpack` takes no part), `Payload` keeps its prior value, and the
count is at most 4 and at most the length of the input; the outcome does not
depend on the bytes from offset 4 on. -/
theorem Unpack_rejected_payload {Message : Type} (cemi cemi2 : Cemi Message)
    (req : TunnelReq Message) (data : List Byte)
    (hrej : data.length < 4 ∨ (4 ≤ data.length ∧ data[0]? ≠ some 4)) :
    (TunnelReq.Unpack cemi req data).2.2 ≠ none ∧
    TunnelReq.Unpack cemi req data = TunnelReq.Unpack cemi2 req data ∧
    (TunnelReq.Unpack cemi req data).1.Payload = req.Payload ∧
    (TunnelReq.Unpack cemi req data).2.1 ≤ 4 ∧
    (TunnelReq.Unpack cemi req data).2.1 ≤ data.length ∧
    TunnelReq.Unpack cemi req data = TunnelReq.Unpack cemi req (data.take 4) := by
  rcases hrej with hlt | ⟨hge, h0⟩
  · rcases short_cases data hlt with rfl | ⟨a, rfl⟩ | ⟨a, b, rfl⟩ | ⟨a, b, c, rfl⟩ <;>
      simp [TunnelReq.Unpack, UnpackSome, uintAdd]
  · obtain ⟨a, b, c, d, rest, rfl⟩ := exists_cons4 data hge
    have ha : a ≠ 4 := by simpa using h0
    simp [TunnelReq_Unpack_cons4, ha]

theorem Unpack_rejected_payload_witness :
    (([5, 1, 2, 3, 9, 9, 9] : List Byte).length < 4 ∨
      (4 ≤ ([5, 1, 2, 3, 9, 9, 9] : List Byte).length ∧
        ([5, 1, 2, 3, 9, 9, 9] : List Byte)[0]? ≠ some 4)) ∧
    (TunnelReq.Unpack rawCemi ⟨0, 0, [7]⟩ [5, 1, 2, 3, 9, 9, 9]).1.Payload = [7] ∧
    (TunnelReq.Unpack rawCemi ⟨0, 0, [7]⟩ [5, 1, 2, 3, 9, 9, 9]).2.1 ≤ 4 :=
  ⟨by decide,
    (Unpack_rejected_payload rawCemi rawCemi ⟨0, 0, [7]⟩ [5, 1, 2, 3, 9, 9, 9]
      (by decide)).2.2.1,
    (Unpack_rejected_payload rawCemi rawCemi ⟨0, 0, [7]⟩ [5, 1, 2, 3, 9, 9, 9]
      (by decide)).2.2.2.1⟩

/-- C19. `Pack` writes only the first four bytes: on every buffer of at least
4 bytes `TunnelRes.Pack` leaves a buffer of the same length in which every byte
at index 4 or beyond is unchanged (`Pack` only reads its receiver, so it
returns no receiver); `TunnelReq.Pack` leaves behind its four header bytes
exactly the bytes `cemi.Pack` left in `buffer[4:]`, so a byte of the tail that
`cemi.Pack` leaves alone is unchanged in the result. -/
theorem Pack_frame {Message : Type} (cemi : Cemi Message) (req : TunnelReq Message)
    (res : TunnelRes) (buffer : List Byte) (hlen : 4 ≤ buffer.length) :
    (∃ packed, res.Pack buffer = some packed ∧ packed.length = buffer.length ∧
      ∀ i : Nat, 4 ≤ i → packed[i]? = buffer[i]?) ∧
    (∀ t, cemi.Pack (buffer.drop 4) req.Payload = some t →
      ∃ packed, req.Pack cemi buffer = some packed ∧ packed.drop 4 = t ∧
        ∀ i : Nat, t[i]? = (buffer.drop 4)[i]? → packed[i + 4]? = buffer[i + 4]?) := by
  obtain ⟨a, b, c, d, rest, rfl⟩ := exists_cons4 buffer hlen
  refine ⟨⟨_, TunnelRes_Pack_cons4 res a b c d rest, by simp, ?_⟩, ?_⟩
  · intro i hi
    obtain ⟨j, rfl⟩ : ∃ j, i = j + 4 := ⟨i - 4, by omega⟩
    simp
  · intro t ht
    simp only [List.drop_succ_cons, List.drop_zero] at ht
    refine ⟨4 :: req.Channel :: req.SeqNumber :: 0 :: t, ?_, by simp, ?_⟩
    · rw [TunnelReq_Pack_cons4, ht]; rfl
    · intro i hi
      simpa using hi

theorem Pack_frame_witness :
    4 ≤ ([9, 9, 9, 9, 8, 7] : List Byte).length ∧
    ∃ packed, (TunnelRes.mk 1 2 3).Pack [9, 9, 9, 9, 8, 7] = some packed ∧
      packed.length = ([9, 9, 9, 9, 8, 7] : List Byte).length ∧
      ∀ i : Nat, 4 ≤ i → packed[i]? = ([9, 9, 9, 9, 8, 7] : List Byte)[i]? :=
  ⟨by decide, (Pack_frame rawCemi ⟨1, 2, []⟩ ⟨1, 2, 3⟩ [9, 9, 9, 9, 8, 7] (by decide)).1⟩

set_option maxRecDepth 100000 in
theorem String_left_inverse :
    ∃ g : List Char → Nat, ∀ s : Byte, g (TunnelResStatus.String s).data = s.val :=
  ⟨fun cs =>
      match cs with
      | ['O', 'k'] => 0
      | ['0', 'x', c] => if c.toNat < 58 then c.toNat - 48 else c.toNat - 87
      | ['0', 'x', c, d] =>
        16 * (if c.toNat < 58 then c.toNat - 48 else c.toNat - 87) +
          (if d.toNat < 58 then d.toNat - 48 else d.toNat - 87)
      | _ => 0x29,
    by decide⟩

/-- C20. Status rendering is injective: two status bytes with the same
`String()` are equal; no unnamed status renders as `Ok` or `Unsupported`. -/
theorem String_injective (a b : TunnelResStatus)
    (h : TunnelResStatus.String a = TunnelResStatus.String b) :
    a = b ∧
    (∀ s : TunnelResStatus, s ≠ 0x00 → s ≠ 0x29 →
      TunnelResStatus.String s ≠ "Ok" ∧ TunnelResStatus.String s ≠ "Unsupported") := by
  obtain ⟨g, hg⟩ := String_left_inverse
  refine ⟨?_, ?_⟩
  · apply Fin.ext
    rw [← hg a, ← hg b, h]
  · intro s hok hun
    exact ⟨fun hs => hok ((String_named_iff s).1.mp hs),
      fun hs => hun ((String_named_iff s).2.mp hs)⟩

theorem String_injective_witness :
    TunnelResStatus.String 0x2A = TunnelResStatus.String (0x20 + 0x0A) ∧
    ((0x2A : TunnelResStatus) = 0x20 + 0x0A) :=
  ⟨by decide, (String_injective 0x2A (0x20 + 0x0A) (by decide)).1⟩

end Knx
